import Mathlib

/-!
Shallow embedding of the `EventDispatcher` component of `src/main.cpp`
(Sinewine-dispatcher).

The C++ class is

  template<typename EventEnum, typename LockType = std::shared_mutex>
  class EventDispatcher {
    struct HandlerBase { HandlerId id; int priority; virtual void call(void*); };
    template<typename... Args> struct Handler : HandlerBase { std::function<void(Args...)> func; ... };
    std::map<EventEnum, std::vector<std::unique_ptr<HandlerBase>>> handlers_;
    mutable LockType mutex_;
    std::atomic<HandlerId> next_id_{1};   // HandlerId = size_t
    ...
  };

We model it as a pure state machine:

* `HandlerEntry` is a stored handler: its `id` (the size_t `HandlerId`),
  its `priority` (the C++ `int`, used only in comparisons, so `Int` is
  exact) and `sig`, an abstract tag list standing for the template
  argument pack `Args...` of the concrete `Handler<Args...>` subclass.
  The callable body `func` acts only on the caller's world and never on
  dispatcher state, so it is not part of the state; an invocation is
  recorded by the entry that was invoked.
* `DispatcherState` is `handlers_` (an association list modelling the
  `std::map`; no claim depends on the map's key iteration order, every
  access goes through `find`/`operator[]`) together with `next_id_`.
  `next_id_` is a `size_t`, so its increment wraps modulo `2 ^ 64`
  (`idModulus`).
* `registerHandler`, `unregisterHandler` and `dispatch` are line-by-line
  translations of the three member functions (the locking is dropped:
  each operation is modelled as one atomic step of the state machine).
  `dispatch` returns the list of handler entries it invokes, in
  invocation order, together with the (unchanged) state; the method is
  `const` in the source.
* `std::upper_bound(vec.begin(), vec.end(), priority, [](int p, h){ return p > h->priority; })`
  returns the first position whose entry has priority strictly below the
  new priority, on a range partitioned for that predicate (every list the
  dispatcher ever stores is descending in priority, hence partitioned);
  `upperBoundInsert` is the linear-scan function with exactly that
  result, and the new handler is inserted there.
-/

/-- The `EventType` enumeration of `src/main.cpp` (the demo instantiation
of the `EventEnum` template parameter). -/
inductive EventType where
  | EventA
  | EventB
deriving DecidableEq

/-- `size_t` id arithmetic is modulo `2 ^ 64`. -/
def idModulus : Nat := 2 ^ 64

/-- One stored handler registration: `HandlerBase`'s `id` and `priority`
data members, plus `sig`, the abstract tag for the argument-type pack
`Args...` of the concrete `Handler<Args...>` the registration created. -/
structure HandlerEntry where
  id : Nat
  priority : Int
  sig : List Nat
deriving DecidableEq

/-- The dispatcher state: the `handlers_` map (category to handler
vector) and the `next_id_` counter. -/
structure DispatcherState (κ : Type) where
  handlers : List (κ × List HandlerEntry)
  next_id : Nat
deriving DecidableEq

/-- `std::map::find`, on the association-list model. -/
def mapFind? {κ α : Type} [DecidableEq κ] : List (κ × α) → κ → Option α
  | [], _ => none
  | (k', v) :: rest, k => if k = k' then some v else mapFind? rest k

/-- Store a value under a key: replace the existing binding, or append a
new one (`std::map::operator[]` followed by assignment of the vector). -/
def mapSet {κ α : Type} [DecidableEq κ] : List (κ × α) → κ → α → List (κ × α)
  | [], k, v => [(k, v)]
  | (k', v') :: rest, k, v =>
      if k = k' then (k, v) :: rest else (k', v') :: mapSet rest k v

/-- A freshly constructed dispatcher: empty map, `next_id_{1}`. -/
def initState (κ : Type) : DispatcherState κ := ⟨[], 1⟩

/-- The handler vector of category `c` (empty when the map has no entry
for `c`, matching what `operator[]` would default-construct). -/
def catList {κ : Type} [DecidableEq κ] (st : DispatcherState κ) (c : κ) :
    List HandlerEntry :=
  (mapFind? st.handlers c).getD []

/-- Insertion at the position `std::upper_bound(vec.begin(), vec.end(), p,
[](int p, h){ return p > h->priority; })` computes on a partitioned
range: immediately before the first entry whose priority is strictly
less than `p`. -/
def upperBoundInsert (p : Int) (h : HandlerEntry) :
    List HandlerEntry → List HandlerEntry
  | [] => [h]
  | e :: rest =>
      if p > e.priority then h :: e :: rest else e :: upperBoundInsert p h rest

/-- `registerHandler(event, callable, priority)`: allocate
`id = next_id_++` (wrapping `size_t` increment), build the
`Handler<Args...>` entry, and insert it into `handlers_[event]` at the
`upper_bound` position. Returns the id and the new state. -/
def registerHandler {κ : Type} [DecidableEq κ] (st : DispatcherState κ)
    (c : κ) (sig : List Nat) (priority : Int) : Nat × DispatcherState κ :=
  let id := st.next_id
  let vec := catList st c
  let vec' := upperBoundInsert priority ⟨id, priority, sig⟩ vec
  (id, ⟨mapSet st.handlers c vec', (st.next_id + 1) % idModulus⟩)

/-- `unregisterHandler(event, id)`: if the map has an entry for `event`,
erase (`std::remove_if`) every stored handler whose id equals `id`,
keeping the remaining entries in order; otherwise do nothing. -/
def unregisterHandler {κ : Type} [DecidableEq κ] (st : DispatcherState κ)
    (c : κ) (id : Nat) : DispatcherState κ :=
  match mapFind? st.handlers c with
  | none => st
  | some vec =>
      ⟨mapSet st.handlers c (vec.filter (fun h => h.id ≠ id)), st.next_id⟩

/-- `dispatch(event, args...)`: look up the category; if absent, return
immediately; otherwise invoke every stored handler of the vector in
order, handing each the caller's argument tuple. `sig` is the tag of the
supplied argument types `std::decay_t<Args>...`; the loop body
`handler->call(&tup)` performs no signature comparison, so every entry
of the vector is invoked regardless of `sig`. The returned list is the
sequence of invoked entries; the state is returned unchanged (the method
is `const`). -/
def dispatch {κ : Type} [DecidableEq κ] (st : DispatcherState κ)
    (c : κ) (sig : List Nat) : List HandlerEntry × DispatcherState κ :=
  match mapFind? st.handlers c with
  | none => ([], st)
  | some vec => (vec, st)

/-- One external operation on the dispatcher. -/
inductive Op (κ : Type) where
  | reg (c : κ) (sig : List Nat) (priority : Int)
  | unreg (c : κ) (id : Nat)
  | disp (c : κ) (sig : List Nat)

/-- The state after one operation. -/
def step {κ : Type} [DecidableEq κ] (st : DispatcherState κ) :
    Op κ → DispatcherState κ
  | .reg c sig p => (registerHandler st c sig p).2
  | .unreg c id => unregisterHandler st c id
  | .disp c sig => (dispatch st c sig).2

/-- Run a sequence of operations from a given state. -/
def runFrom {κ : Type} [DecidableEq κ] (st : DispatcherState κ)
    (ops : List (Op κ)) : DispatcherState κ :=
  ops.foldl step st

/-- Run a sequence of operations on a freshly constructed dispatcher. -/
def run {κ : Type} [DecidableEq κ] (ops : List (Op κ)) : DispatcherState κ :=
  runFrom (initState κ) ops

/-- The number of register calls in a trace. -/
def countRegs {κ : Type} : List (Op κ) → Nat
  | [] => 0
  | .reg _ _ _ :: rest => countRegs rest + 1
  | .unreg _ _ :: rest => countRegs rest
  | .disp _ _ :: rest => countRegs rest

/-- The ids returned by the register calls of a trace, in call order. -/
def traceIds {κ : Type} [DecidableEq κ] (st : DispatcherState κ) :
    List (Op κ) → List Nat
  | [] => []
  | .reg c sig p :: rest =>
      (registerHandler st c sig p).1 :: traceIds (registerHandler st c sig p).2 rest
  | .unreg c id :: rest => traceIds (unregisterHandler st c id) rest
  | .disp c sig :: rest => traceIds (dispatch st c sig).2 rest

/-- A register call, for register-only traces. -/
structure RegCall (κ : Type) where
  c : κ
  sig : List Nat
  priority : Int

/-- View a register call as a trace operation. -/
def RegCall.toOp {κ : Type} (r : RegCall κ) : Op κ := Op.reg r.c r.sig r.priority

/-- The state after a register-only trace on a fresh dispatcher. -/
def runRegs {κ : Type} [DecidableEq κ] (regs : List (RegCall κ)) :
    DispatcherState κ :=
  run (regs.map RegCall.toOp)

/-- The entries a register-only trace creates on category `c` with
priority `q`, in registration order (each with the id the corresponding
`registerHandler` call returns). -/
def mkEntries {κ : Type} [DecidableEq κ] (st : DispatcherState κ)
    (c : κ) (q : Int) : List (RegCall κ) → List HandlerEntry
  | [] => []
  | r :: rest =>
      (if r.c = c ∧ r.priority = q then [⟨st.next_id, r.priority, r.sig⟩] else [])
        ++ mkEntries (registerHandler st r.c r.sig r.priority).2 c q rest

/-- The id stream the wrapping counter produces: starting value `a`,
then the successor modulo `idModulus`, for `n` register calls. -/
def idsFrom (a : Nat) : Nat → List Nat
  | 0 => []
  | n + 1 => a :: idsFrom ((a + 1) % idModulus) n

/-- The id stream without wrap: `a, a + 1, …, a + n - 1`. -/
def expectedIds (a : Nat) : Nat → List Nat
  | 0 => []
  | n + 1 => a :: expectedIds (a + 1) n

/-- A handler vector ordered by non-increasing priority. -/
def prioSorted (l : List HandlerEntry) : Prop :=
  l.Pairwise (fun a b => b.priority ≤ a.priority)

/-- Every handler vector of the state is priority-sorted. -/
def SortedState {κ : Type} [DecidableEq κ] (st : DispatcherState κ) : Prop :=
  ∀ c, prioSorted (catList st c)

/-- The three-registration example of the spec: priority 5 (id A = 1),
priority 10 (id B = 2), priority 7 (id C = 3), all on one category with
one argument signature. -/
def exampleRegs : List (RegCall EventType) :=
  [⟨EventType.EventA, [0], 5⟩, ⟨EventType.EventA, [0], 10⟩,
    ⟨EventType.EventA, [0], 7⟩]

/-- The dispatcher state after the three example registrations. -/
def exampleState : DispatcherState EventType := runRegs exampleRegs

/-- A state with one handler registered on `EventB` (id 1): used to
exercise the cross-category frame conditions. -/
def crossState : DispatcherState EventType :=
  (registerHandler (initState EventType) EventType.EventB [0] 5).2

/-- A state with a single handler (id 1) on `EventA`: used to exercise
unregistration of a category's last handler. -/
def singleRegState : DispatcherState EventType :=
  runRegs [⟨EventType.EventA, [0], 5⟩]

/-- A small mixed trace — three registrations across two categories with
an interleaved unregister — used to exercise id uniqueness. -/
def exampleOps : List (Op EventType) :=
  [Op.reg EventType.EventA [0] 5, Op.reg EventType.EventB [1] 3,
    Op.unreg EventType.EventA 1, Op.reg EventType.EventA [0] 2]

/-! ### Association-list map lemmas -/

theorem mapFind?_mapSet_self {κ α : Type} [DecidableEq κ]
    (m : List (κ × α)) (k : κ) (v : α) :
    mapFind? (mapSet m k v) k = some v := by
  induction m with
  | nil => simp [mapFind?, mapSet]
  | cons hd tl ih =>
    obtain ⟨k', v'⟩ := hd
    by_cases h : k = k' <;> simp [mapFind?, mapSet, h, ih]

theorem mapFind?_mapSet_ne {κ α : Type} [DecidableEq κ]
    (m : List (κ × α)) {k k' : κ} (v : α) (h : k' ≠ k) :
    mapFind? (mapSet m k v) k' = mapFind? m k' := by
  induction m with
  | nil => simp [mapFind?, mapSet, h]
  | cons hd tl ih =>
    obtain ⟨k₀, v₀⟩ := hd
    by_cases hk : k = k₀
    · subst hk
      simp [mapFind?, mapSet, h]
    · by_cases hk' : k' = k₀ <;> simp [mapFind?, mapSet, hk, hk', ih]

theorem mapSet_self_of_find? {κ α : Type} [DecidableEq κ]
    {m : List (κ × α)} {k : κ} {v : α} (h : mapFind? m k = some v) :
    mapSet m k v = m := by
  induction m with
  | nil => simp [mapFind?] at h
  | cons hd tl ih =>
    obtain ⟨k₀, v₀⟩ := hd
    by_cases hk : k = k₀
    · subst hk
      simp [mapFind?] at h
      simp [mapSet, h]
    · simp [mapFind?, hk] at h
      simp [mapSet, hk, ih h]

theorem mapSet_mapSet {κ α : Type} [DecidableEq κ]
    (m : List (κ × α)) (k : κ) (v v' : α) :
    mapSet (mapSet m k v) k v' = mapSet m k v' := by
  induction m with
  | nil => simp [mapSet]
  | cons hd tl ih =>
    obtain ⟨k₀, v₀⟩ := hd
    by_cases hk : k = k₀ <;> simp [mapSet, hk, ih]

/-! ### State-access lemmas for the three operations -/

theorem catList_register_self {κ : Type} [DecidableEq κ]
    (st : DispatcherState κ) (c : κ) (sig : List Nat) (p : Int) :
    catList (registerHandler st c sig p).2 c
      = upperBoundInsert p ⟨st.next_id, p, sig⟩ (catList st c) := by
  simp [catList, registerHandler, mapFind?_mapSet_self]

theorem catList_register_ne {κ : Type} [DecidableEq κ]
    (st : DispatcherState κ) {c c' : κ} (sig : List Nat) (p : Int)
    (h : c' ≠ c) :
    catList (registerHandler st c sig p).2 c' = catList st c' := by
  simp [catList, registerHandler, mapFind?_mapSet_ne _ _ h]

theorem catList_unregister_self {κ : Type} [DecidableEq κ]
    (st : DispatcherState κ) (c : κ) (id : Nat) :
    catList (unregisterHandler st c id) c
      = (catList st c).filter (fun h => h.id ≠ id) := by
  unfold unregisterHandler
  cases hf : mapFind? st.handlers c with
  | none => simp [catList, hf]
  | some vec => simp [catList, hf, mapFind?_mapSet_self]

theorem catList_unregister_ne {κ : Type} [DecidableEq κ]
    (st : DispatcherState κ) {c c' : κ} (id : Nat) (h : c' ≠ c) :
    catList (unregisterHandler st c id) c' = catList st c' := by
  unfold unregisterHandler
  cases hf : mapFind? st.handlers c with
  | none => rfl
  | some vec => simp [catList, mapFind?_mapSet_ne _ _ h]

theorem register_next_id {κ : Type} [DecidableEq κ]
    (st : DispatcherState κ) (c : κ) (sig : List Nat) (p : Int) :
    (registerHandler st c sig p).2.next_id = (st.next_id + 1) % idModulus := rfl

theorem register_fst {κ : Type} [DecidableEq κ]
    (st : DispatcherState κ) (c : κ) (sig : List Nat) (p : Int) :
    (registerHandler st c sig p).1 = st.next_id := rfl

theorem unregister_next_id {κ : Type} [DecidableEq κ]
    (st : DispatcherState κ) (c : κ) (id : Nat) :
    (unregisterHandler st c id).next_id = st.next_id := by
  unfold unregisterHandler
  cases mapFind? st.handlers c <;> rfl

theorem dispatch_snd {κ : Type} [DecidableEq κ]
    (st : DispatcherState κ) (c : κ) (sig : List Nat) :
    (dispatch st c sig).2 = st := by
  unfold dispatch
  cases mapFind? st.handlers c <;> rfl

theorem dispatch_fst {κ : Type} [DecidableEq κ]
    (st : DispatcherState κ) (c : κ) (sig : List Nat) :
    (dispatch st c sig).1 = catList st c := by
  unfold dispatch
  cases hf : mapFind? st.handlers c <;> simp [catList, hf]

/-! ### `upperBoundInsert` lemmas -/

theorem mem_upperBoundInsert {p : Int} {h x : HandlerEntry}
    {l : List HandlerEntry} (hx : x ∈ upperBoundInsert p h l) :
    x = h ∨ x ∈ l := by
  induction l with
  | nil =>
    simp [upperBoundInsert] at hx
    exact Or.inl hx
  | cons e rest ih =>
    by_cases hc : p > e.priority
    · simp [upperBoundInsert, hc] at hx
      rcases hx with hx | hx | hx
      · exact Or.inl hx
      · exact Or.inr (by simp [hx])
      · exact Or.inr (by simp [hx])
    · simp [upperBoundInsert, hc] at hx
      rcases hx with hx | hx
      · exact Or.inr (by simp [hx])
      · rcases ih hx with hx' | hx'
        · exact Or.inl hx'
        · exact Or.inr (by simp [hx'])

theorem prioSorted_upperBoundInsert {p : Int} {h : HandlerEntry}
    {l : List HandlerEntry} (hs : prioSorted l) (hp : h.priority = p) :
    prioSorted (upperBoundInsert p h l) := by
  induction l with
  | nil => simp [upperBoundInsert, prioSorted]
  | cons e rest ih =>
    rw [prioSorted, List.pairwise_cons] at hs
    obtain ⟨he, hrest⟩ := hs
    by_cases hc : p > e.priority
    · rw [upperBoundInsert, if_pos hc, prioSorted, List.pairwise_cons]
      constructor
      · intro x hx
        rcases List.mem_cons.mp hx with rfl | hx
        · rw [hp]; exact le_of_lt hc
        · exact le_trans (he x hx) (by rw [hp]; exact le_of_lt hc)
      · rw [List.pairwise_cons]
        exact ⟨he, hrest⟩
    · rw [upperBoundInsert, if_neg hc, prioSorted, List.pairwise_cons]
      constructor
      · intro x hx
        rcases mem_upperBoundInsert hx with hx' | hx'
        · rw [hx', hp]
          exact le_of_not_lt hc
        · exact he x hx'
      · exact ih hrest

theorem upperBoundInsert_eq_takeWhile_dropWhile (p : Int) (h : HandlerEntry)
    (l : List HandlerEntry) :
    upperBoundInsert p h l
      = l.takeWhile (fun e => decide (p ≤ e.priority))
          ++ h :: l.dropWhile (fun e => decide (p ≤ e.priority)) := by
  induction l with
  | nil => simp [upperBoundInsert]
  | cons e rest ih =>
    by_cases hc : p > e.priority
    · have hb : (decide (p ≤ e.priority)) = false := by
        simp
        exact hc
      simp [upperBoundInsert, hc, List.takeWhile_cons, List.dropWhile_cons, hb]
    · have hb : (decide (p ≤ e.priority)) = true := by
        simp
        exact le_of_not_lt hc
      simp [upperBoundInsert, hc, List.takeWhile_cons, List.dropWhile_cons, hb, ih]

theorem filter_priority_upperBoundInsert (p : Int) (h : HandlerEntry)
    {l : List HandlerEntry} (hs : prioSorted l) (hp : h.priority = p) (q : Int) :
    (upperBoundInsert p h l).filter (fun e => e.priority = q)
      = if p = q then (l.filter (fun e => e.priority = q)) ++ [h]
        else l.filter (fun e => e.priority = q) := by
  induction l with
  | nil =>
    by_cases hq : p = q <;> simp [upperBoundInsert, List.filter, hp, hq]
  | cons e rest ih =>
    rw [prioSorted, List.pairwise_cons] at hs
    obtain ⟨he, hrest⟩ := hs
    by_cases hc : p > e.priority
    · -- inserted in front of `e`; every entry of `e :: rest` has priority < p
      have hall : ∀ x ∈ e :: rest, x.priority < p := by
        intro x hx
        rcases List.mem_cons.mp hx with rfl | hx
        · exact hc
        · exact lt_of_le_of_lt (he x hx) hc
      by_cases hq : p = q
      · have hnone : (e :: rest).filter (fun e => e.priority = q) = [] := by
          rw [List.filter_eq_nil_iff]
          intro x hx
          simp
          exact ne_of_lt (by rw [← hq]; exact hall x hx)
        rw [upperBoundInsert, if_pos hc, if_pos hq]
        rw [List.filter_cons_of_pos (by simp [hp, hq]), hnone]
        simp
      · rw [upperBoundInsert, if_pos hc, if_neg hq]
        rw [List.filter_cons_of_neg (by simp [hp, hq])]
    · rw [upperBoundInsert, if_neg hc]
      by_cases heq : e.priority = q
      · rw [List.filter_cons_of_pos (by simp [heq]),
          List.filter_cons_of_pos (by simp [heq]), ih hrest]
        by_cases hq : p = q <;> simp [hq]
      · rw [List.filter_cons_of_neg (by simp [heq]),
          List.filter_cons_of_neg (by simp [heq]), ih hrest]

/-! ### Dispatch and unregister semantics helpers -/

theorem dispatch_of_catList_nil {κ : Type} [DecidableEq κ]
    (st : DispatcherState κ) (c : κ) (sig : List Nat)
    (h : catList st c = []) :
    dispatch st c sig = ([], st) := by
  cases hf : mapFind? st.handlers c with
  | none => unfold dispatch; rw [hf]
  | some vec =>
    have hv : vec = [] := by simpa [catList, hf] using h
    unfold dispatch
    rw [hf, hv]

theorem unregister_of_find_none {κ : Type} [DecidableEq κ]
    {st : DispatcherState κ} {c : κ} (id : Nat)
    (hf : mapFind? st.handlers c = none) :
    unregisterHandler st c id = st := by
  unfold unregisterHandler
  rw [hf]

theorem unregister_of_find_some {κ : Type} [DecidableEq κ]
    {st : DispatcherState κ} {c : κ} {vec : List HandlerEntry} (id : Nat)
    (hf : mapFind? st.handlers c = some vec) :
    unregisterHandler st c id
      = ⟨mapSet st.handlers c (vec.filter (fun h => h.id ≠ id)), st.next_id⟩ := by
  unfold unregisterHandler
  rw [hf]

theorem unregister_noop_of_not_found {κ : Type} [DecidableEq κ]
    (st : DispatcherState κ) (c : κ) (id : Nat)
    (h : ∀ e ∈ catList st c, e.id ≠ id) :
    unregisterHandler st c id = st := by
  cases hf : mapFind? st.handlers c with
  | none => exact unregister_of_find_none id hf
  | some vec =>
    have hv : catList st c = vec := by simp [catList, hf]
    have h2 : vec.filter (fun h => h.id ≠ id) = vec :=
      List.filter_eq_self.mpr (fun a ha => by simpa using h a (hv ▸ ha))
    rw [unregister_of_find_some id hf, h2, mapSet_self_of_find? hf]

theorem unregister_idem {κ : Type} [DecidableEq κ]
    (st : DispatcherState κ) (c : κ) (id : Nat) :
    unregisterHandler (unregisterHandler st c id) c id
      = unregisterHandler st c id := by
  cases hf : mapFind? st.handlers c with
  | none => rw [unregister_of_find_none id hf, unregister_of_find_none id hf]
  | some vec =>
    have h2 : (vec.filter (fun h => h.id ≠ id)).filter (fun h => h.id ≠ id)
        = vec.filter (fun h => h.id ≠ id) :=
      List.filter_eq_self.mpr (fun a ha => (List.mem_filter.mp ha).2)
    rw [unregister_of_find_some id hf,
      unregister_of_find_some id (mapFind?_mapSet_self st.handlers c _), h2]
    simp [mapSet_mapSet]

/-! ### The sortedness invariant -/

theorem sortedState_init (κ : Type) [DecidableEq κ] :
    SortedState (initState κ) := by
  intro c
  simp [initState, catList, mapFind?, prioSorted]

theorem sortedState_register {κ : Type} [DecidableEq κ]
    {st : DispatcherState κ} (hs : SortedState st) (c : κ)
    (sig : List Nat) (p : Int) :
    SortedState (registerHandler st c sig p).2 := by
  intro c'
  by_cases hc : c' = c
  · subst hc
    rw [catList_register_self]
    exact prioSorted_upperBoundInsert (hs c') rfl
  · rw [catList_register_ne st sig p hc]
    exact hs c'

theorem sortedState_unregister {κ : Type} [DecidableEq κ]
    {st : DispatcherState κ} (hs : SortedState st) (c : κ) (id : Nat) :
    SortedState (unregisterHandler st c id) := by
  intro c'
  by_cases hc : c' = c
  · subst hc
    rw [catList_unregister_self]
    exact List.Pairwise.sublist (List.filter_sublist _) (hs c')
  · rw [catList_unregister_ne st id hc]
    exact hs c'

theorem sortedState_step {κ : Type} [DecidableEq κ]
    {st : DispatcherState κ} (hs : SortedState st) (op : Op κ) :
    SortedState (step st op) := by
  cases op with
  | reg c sig p => exact sortedState_register hs c sig p
  | unreg c id => exact sortedState_unregister hs c id
  | disp c sig => rw [step, dispatch_snd]; exact hs

theorem sortedState_runFrom {κ : Type} [DecidableEq κ]
    (ops : List (Op κ)) :
    ∀ (st : DispatcherState κ), SortedState st → SortedState (runFrom st ops) := by
  induction ops with
  | nil => intro st hs; exact hs
  | cons op rest ih =>
    intro st hs
    exact ih (step st op) (sortedState_step hs op)

theorem sortedState_run {κ : Type} [DecidableEq κ] (ops : List (Op κ)) :
    SortedState (run ops) :=
  sortedState_runFrom ops (initState κ) (sortedState_init κ)

/-! ### Stability of the per-priority registration order -/

theorem filter_catList_regs {κ : Type} [DecidableEq κ]
    (regs : List (RegCall κ)) :
    ∀ (st : DispatcherState κ), SortedState st → ∀ (c : κ) (q : Int),
      (catList (runFrom st (regs.map RegCall.toOp)) c).filter
          (fun e => e.priority = q)
        = (catList st c).filter (fun e => e.priority = q)
            ++ mkEntries st c q regs := by
  induction regs with
  | nil => intro st _ c q; simp [runFrom, mkEntries]
  | cons r rest ih =>
    intro st hs c q
    have hstep : runFrom st ((r :: rest).map RegCall.toOp)
        = runFrom (registerHandler st r.c r.sig r.priority).2
            (rest.map RegCall.toOp) := rfl
    rw [hstep, ih _ (sortedState_register hs r.c r.sig r.priority) c q]
    simp only [mkEntries]
    rw [← List.append_assoc]
    congr 1
    by_cases hc : r.c = c
    · subst hc
      rw [catList_register_self,
        filter_priority_upperBoundInsert r.priority
          ⟨st.next_id, r.priority, r.sig⟩ (hs r.c) rfl q]
      by_cases hq : r.priority = q
      · simp [hq]
      · simp [hq]
    · rw [catList_register_ne st r.sig r.priority (fun hcc => hc hcc.symm)]
      simp [hc]

/-! ### Claim theorems -/

/-- C1: for every category and every sequence of register calls,
dispatch on that category invokes the registered handlers in descending
priority order (`prioSorted`, non-increasing priorities, distinct
priorities thus strictly descending), and the handlers of each fixed
priority `q` appear in the exact order they were registered, with the
ids their registrations returned (`mkEntries`). In particular, after
registering priority 5 (id 1 = A), priority 10 (id 2 = B), priority 7
(id 3 = C) on one category, dispatch invokes B, then C, then A. -/
theorem dispatch_priority_order {κ : Type} [DecidableEq κ] :
    (∀ (regs : List (RegCall κ)) (c : κ) (sig : List Nat),
      prioSorted ((dispatch (runRegs regs) c sig).1)
      ∧ ∀ q : Int,
          ((dispatch (runRegs regs) c sig).1).filter (fun e => e.priority = q)
            = mkEntries (initState κ) c q regs)
    ∧ ((dispatch exampleState EventType.EventA [0]).1).map HandlerEntry.id
        = [2, 3, 1] := by
  constructor
  · intro regs c sig
    constructor
    · rw [dispatch_fst]
      exact sortedState_run (regs.map RegCall.toOp) c
    · intro q
      rw [dispatch_fst]
      have h := filter_catList_regs regs (initState κ) (sortedState_init κ) c q
      simpa [runRegs, run, catList, initState, mapFind?] using h
  · decide

/-- C2: every category's handler list is priority-sorted in every state
reachable by any operation sequence; register inserts the new entry
after all entries of priority ≥ its own and immediately before the first
entry of strictly smaller priority (the `takeWhile`/`dropWhile` split at
`p ≤ priority`); unregister keeps the remaining entries in order (the
result is the `≠ id` filter, a sublist of the old list). -/
theorem handler_list_sorted_invariant {κ : Type} [DecidableEq κ] :
    (∀ (ops : List (Op κ)) (c : κ), prioSorted (catList (run ops) c))
    ∧ (∀ (st : DispatcherState κ) (c : κ) (sig : List Nat) (p : Int),
        catList (registerHandler st c sig p).2 c
          = (catList st c).takeWhile (fun e => decide (p ≤ e.priority))
              ++ ⟨st.next_id, p, sig⟩
                :: (catList st c).dropWhile (fun e => decide (p ≤ e.priority)))
    ∧ (∀ (st : DispatcherState κ) (c : κ) (id : Nat),
        catList (unregisterHandler st c id) c
            = (catList st c).filter (fun h => h.id ≠ id)
        ∧ List.Sublist (catList (unregisterHandler st c id) c)
            (catList st c)) := by
  refine ⟨fun ops c => sortedState_run ops c, fun st c sig p => ?_,
    fun st c id => ⟨catList_unregister_self st c id, ?_⟩⟩
  · rw [catList_register_self, upperBoundInsert_eq_takeWhile_dropWhile]
  · rw [catList_unregister_self]
    exact List.filter_sublist _

/-- C5: unregister removes exactly the entries bearing the given id from
the category's list, is idempotent, and is a state-preserving no-op both
when the category has no list and when the id is not found. In the
three-handler example, after unregistering id 2 (B) dispatch invokes C
(id 3) then A (id 1), and a second unregister of id 2 changes nothing. -/
theorem unregister_removes_idempotent {κ : Type} [DecidableEq κ] :
    (∀ (st : DispatcherState κ) (c : κ) (id : Nat),
      catList (unregisterHandler st c id) c
          = (catList st c).filter (fun h => h.id ≠ id)
      ∧ unregisterHandler (unregisterHandler st c id) c id
          = unregisterHandler st c id
      ∧ (mapFind? st.handlers c = none → unregisterHandler st c id = st)
      ∧ ((∀ e ∈ catList st c, e.id ≠ id) → unregisterHandler st c id = st))
    ∧ ((dispatch (unregisterHandler exampleState EventType.EventA 2)
          EventType.EventA [0]).1).map HandlerEntry.id = [3, 1]
    ∧ unregisterHandler (unregisterHandler exampleState EventType.EventA 2)
          EventType.EventA 2
        = unregisterHandler exampleState EventType.EventA 2 := by
  refine ⟨fun st c id => ⟨catList_unregister_self st c id,
      unregister_idem st c id,
      fun hf => unregister_of_find_none id hf,
      unregister_noop_of_not_found st c id⟩,
    by decide, by decide⟩

theorem unregister_removes_idempotent_witness :
    unregisterHandler (initState EventType) EventType.EventA 7
        = initState EventType
    ∧ unregisterHandler exampleState EventType.EventA 99 = exampleState :=
  ⟨(unregister_removes_idempotent.1 (initState EventType)
      EventType.EventA 7).2.2.1 rfl,
   (unregister_removes_idempotent.1 exampleState
      EventType.EventA 99).2.2.2 (by decide)⟩

/-- C6: dispatch on a category with zero registered handlers (absent
from the map, or present with an empty list) invokes no handler and
returns normally with the dispatcher state unchanged. -/
theorem dispatch_unknown_category_noop {κ : Type} [DecidableEq κ]
    (st : DispatcherState κ) (c : κ) (sig : List Nat)
    (h : catList st c = []) :
    dispatch st c sig = ([], st) :=
  dispatch_of_catList_nil st c sig h

theorem dispatch_unknown_category_noop_witness :
    dispatch (initState EventType) EventType.EventA [0]
      = ([], initState EventType) :=
  dispatch_unknown_category_noop (initState EventType) EventType.EventA [0] rfl

/-- C7: dispatch leaves the dispatcher state — the category-to-handler
map and the id counter — entirely unchanged, for every state, category
and argument list. -/
theorem dispatch_state_readonly {κ : Type} [DecidableEq κ]
    (st : DispatcherState κ) (c : κ) (sig : List Nat) :
    (dispatch st c sig).2 = st :=
  dispatch_snd st c sig

/-- C9: register and unregister on a category `c` leave the handler list
of every other category `c'` unchanged; unregister on `c` of an id not
present in `c`'s list (such as an id issued by a registration on `c'`,
ids being unique) removes nothing — the whole state is unchanged — and a
later dispatch on `c'` invokes exactly what it would have before. -/
theorem cross_category_frame {κ : Type} [DecidableEq κ]
    (st : DispatcherState κ) (c c' : κ) (h : c' ≠ c) (sig : List Nat)
    (p : Int) (id : Nat) :
    catList (registerHandler st c sig p).2 c' = catList st c'
    ∧ catList (unregisterHandler st c id) c' = catList st c'
    ∧ ((∀ e ∈ catList st c, e.id ≠ id) → unregisterHandler st c id = st)
    ∧ (dispatch (unregisterHandler st c id) c' sig).1
        = (dispatch st c' sig).1 := by
  refine ⟨catList_register_ne st sig p h, catList_unregister_ne st id h,
    unregister_noop_of_not_found st c id, ?_⟩
  rw [dispatch_fst, dispatch_fst, catList_unregister_ne st id h]

theorem cross_category_frame_witness :
    unregisterHandler crossState EventType.EventA 1 = crossState
    ∧ (dispatch (unregisterHandler crossState EventType.EventA 1)
          EventType.EventB [0]).1
        = (dispatch crossState EventType.EventB [0]).1 := by
  have h := cross_category_frame crossState EventType.EventA EventType.EventB
    (by decide) [0] 5 1
  exact ⟨h.2.2.1 (by decide), h.2.2.2⟩

/-- C10: when the map has an entry for a category, unregister keeps that
entry (filtered, possibly empty) in the map rather than deleting it; and
once the filtered list is empty, dispatch on the category invokes no
handler, returns normally, and its invocation list is the same as on a
freshly constructed dispatcher where the category was never registered. -/
theorem empty_category_entry_retained {κ : Type} [DecidableEq κ]
    (st : DispatcherState κ) (c : κ) (id : Nat) (sig : List Nat)
    (vec : List HandlerEntry) (hf : mapFind? st.handlers c = some vec) :
    mapFind? (unregisterHandler st c id).handlers c
        = some (vec.filter (fun h => h.id ≠ id))
    ∧ (vec.filter (fun h => h.id ≠ id) = [] →
        dispatch (unregisterHandler st c id) c sig
            = ([], unregisterHandler st c id)
        ∧ (dispatch (unregisterHandler st c id) c sig).1
            = (dispatch (initState κ) c sig).1) := by
  have hfind : mapFind? (unregisterHandler st c id).handlers c
      = some (vec.filter (fun h => h.id ≠ id)) := by
    rw [unregister_of_find_some id hf]
    exact mapFind?_mapSet_self _ _ _
  refine ⟨hfind, fun hnil => ?_⟩
  have hcat : catList (unregisterHandler st c id) c = [] := by
    unfold catList
    rw [hfind, Option.getD_some, hnil]
  have e1 := dispatch_of_catList_nil (unregisterHandler st c id) c sig hcat
  have e2 := dispatch_of_catList_nil (initState κ) c sig rfl
  refine ⟨e1, ?_⟩
  rw [e1, e2]

theorem empty_category_entry_retained_witness :
    mapFind? (unregisterHandler singleRegState EventType.EventA 1).handlers
        EventType.EventA = some []
    ∧ dispatch (unregisterHandler singleRegState EventType.EventA 1)
          EventType.EventA [0]
        = ([], unregisterHandler singleRegState EventType.EventA 1) := by
  have h := empty_category_entry_retained singleRegState EventType.EventA 1 [0]
    [⟨1, 5, [0]⟩] (by decide)
  exact ⟨h.1.trans (by decide), (h.2 (by decide)).1⟩

/-! ### Handler-id stream lemmas -/

theorem idModulus_pos : 0 < idModulus := Nat.two_pow_pos 64

theorem traceIds_eq_idsFrom {κ : Type} [DecidableEq κ] (ops : List (Op κ)) :
    ∀ st : DispatcherState κ,
      traceIds st ops = idsFrom st.next_id (countRegs ops) := by
  induction ops with
  | nil => intro st; rfl
  | cons op rest ih =>
    intro st
    cases op with
    | reg c sig p =>
      simp only [traceIds, countRegs, idsFrom]
      rw [ih, register_fst, register_next_id]
    | unreg c id =>
      simp only [traceIds, countRegs]
      rw [ih, unregister_next_id]
    | disp c sig =>
      simp only [traceIds, countRegs]
      rw [ih, dispatch_snd]

theorem idsFrom_eq_expectedIds :
    ∀ (n a : Nat), a + n ≤ idModulus → idsFrom a n = expectedIds a n := by
  intro n
  induction n with
  | zero => intro a _; rfl
  | succ m ih =>
    intro a ha
    cases m with
    | zero => simp [idsFrom, expectedIds]
    | succ k =>
      have h1 : a + 1 < idModulus := by omega
      rw [idsFrom, expectedIds, Nat.mod_eq_of_lt h1, ih (a + 1) (by omega)]

theorem mem_expectedIds :
    ∀ (n a x : Nat), x ∈ expectedIds a n → a ≤ x ∧ x < a + n := by
  intro n
  induction n with
  | zero => intro a x hx; simp [expectedIds] at hx
  | succ m ih =>
    intro a x hx
    rw [expectedIds] at hx
    rcases List.mem_cons.mp hx with rfl | hx
    · omega
    · have := ih (a + 1) x hx
      omega

theorem expectedIds_nodup : ∀ (n a : Nat), (expectedIds a n).Nodup := by
  intro n
  induction n with
  | zero => intro a; simp [expectedIds]
  | succ m ih =>
    intro a
    rw [expectedIds, List.nodup_cons]
    refine ⟨fun hx => ?_, ih (a + 1)⟩
    have := mem_expectedIds m (a + 1) a hx
    omega

theorem idsFrom_succ (n : Nat) :
    ∀ a : Nat, a < idModulus →
      idsFrom a (n + 1) = idsFrom a n ++ [(a + n) % idModulus] := by
  induction n with
  | zero => intro a ha; simp [idsFrom, Nat.mod_eq_of_lt ha]
  | succ m ih =>
    intro a ha
    have h1 : (a + 1) % idModulus < idModulus := Nat.mod_lt _ idModulus_pos
    have h2 : ((a + 1) % idModulus + m) % idModulus
        = (a + (m + 1)) % idModulus := by
      rw [Nat.mod_add_mod]
      congr 1
      omega
    rw [idsFrom, ih _ h1, h2, idsFrom]
    rfl

theorem countRegs_replicate {κ : Type} (n : Nat) (c : κ) (sig : List Nat)
    (p : Int) :
    countRegs (List.replicate n (Op.reg c sig p)) = n := by
  induction n with
  | zero => rfl
  | succ m ih => rw [List.replicate_succ, countRegs, ih]

/-- C3 counterexample: register one handler whose argument-type list is
`[0]`, then dispatch with argument-type list `[1]`. The handler is
invoked anyway — `handler->call(&tup)` reinterprets the argument tuple
with no signature comparison — so no mismatching handler is skipped and
no `SignatureMismatch` condition exists to be surfaced. -/
theorem signature_mismatch_still_invoked :
    ((dispatch (registerHandler (initState EventType) EventType.EventA [0] 5).2
        EventType.EventA [1]).1)
      = [⟨1, 5, [0]⟩]
    ∧ ([0] : List Nat) ≠ [1] :=
  ⟨by decide, by decide⟩

/-- C3 amended: dispatch invokes every stored handler of the category,
with an invocation list independent of the supplied argument-type list —
the type-erased `call` performs an unchecked `reinterpret_cast` and the
code has no signature check and no `SignatureMismatch` condition. -/
theorem dispatch_ignores_signature {κ : Type} [DecidableEq κ]
    (st : DispatcherState κ) (c : κ) (sig sig' : List Nat) :
    (dispatch st c sig).1 = catList st c
    ∧ (dispatch st c sig).1 = (dispatch st c sig').1 :=
  ⟨dispatch_fst st c sig,
    (dispatch_fst st c sig).trans (dispatch_fst st c sig').symm⟩

/-- C4 counterexample: in a sequence of `2 ^ 64` register calls, the
returned ids are not all nonzero — the `size_t` counter `next_id_`
wraps, and the `2 ^ 64`-th call returns id 0. -/
theorem register_id_zero_issued :
    0 ∈ traceIds (initState EventType)
        (List.replicate idModulus (Op.reg EventType.EventA [] 0)) := by
  have h1 : traceIds (initState EventType)
      (List.replicate idModulus (Op.reg EventType.EventA [] 0))
        = idsFrom 1 idModulus := by
    rw [traceIds_eq_idsFrom, countRegs_replicate]
    rfl
  rw [h1]
  have hM := idModulus_pos
  have h2 : idModulus = (idModulus - 1) + 1 := by omega
  rw [h2, idsFrom_succ _ 1 (by norm_num [idModulus])]
  have h3 : (1 + (idModulus - 1)) % idModulus = 0 := by
    have h4 : 1 + (idModulus - 1) = idModulus := by omega
    rw [h4, Nat.mod_self]
  rw [h3]
  exact List.mem_append_right _ (List.mem_singleton.mpr rfl)

/-- C4 amended: across every operation sequence containing at most
`2 ^ 64 - 1` register calls (any categories, any interleaved
unregisters), the returned handler ids are pairwise distinct and none
of them is 0. (The unamended claim fails only once the wrapping
`size_t` counter is exhausted, at the `2 ^ 64`-th registration.) -/
theorem register_ids_distinct_nonzero {κ : Type} [DecidableEq κ]
    (ops : List (Op κ)) (h : countRegs ops ≤ idModulus - 1) :
    (traceIds (initState κ) ops).Nodup
    ∧ 0 ∉ traceIds (initState κ) ops := by
  have hM := idModulus_pos
  have h1 : traceIds (initState κ) ops = expectedIds 1 (countRegs ops) := by
    rw [traceIds_eq_idsFrom]
    exact idsFrom_eq_expectedIds (countRegs ops) 1 (by omega)
  rw [h1]
  refine ⟨expectedIds_nodup _ 1, fun hx => ?_⟩
  have := mem_expectedIds (countRegs ops) 1 0 hx
  omega

theorem register_ids_distinct_nonzero_witness :
    countRegs exampleOps ≤ idModulus - 1
    ∧ ((traceIds (initState EventType) exampleOps).Nodup
        ∧ 0 ∉ traceIds (initState EventType) exampleOps) :=
  ⟨by decide, register_ids_distinct_nonzero exampleOps (by decide)⟩
